import Mathlib

/-!
Shallow embedding of the LeetCode-rank backend (src/backend/app.py).

The backend keeps an append-only Firestore collection of rank observations
and exposes four HTTP routes.  We model a JSON value as an inductive type
with Python's truthiness and dictionary access semantics, the Firestore
collection as a list of documents, a server-assigned timestamp as a natural
number passed in by the caller, and each route handler as a pure function of
the store contents (the handlers in the source perform no writes, so reads
are functions of the store; the two fetch paths return the updated store).
Exceptions that a Python expression may raise are modelled with Except: an
Except.error value is an exception propagating out of the modelled code.
-/

namespace LeetcodeRank

/-- JSON values as produced by response.json in the backend. Numbers are
modelled as integers, which covers every ranking payload the routes consume. -/
inductive Json where
  | null
  | bool (b : Bool)
  | num (n : Int)
  | str (s : String)
  | arr (elems : List Json)
  | obj (fields : List (String × Json))

/-- Python truthiness of a JSON value: None, False, 0, empty string, empty
list and empty dict are falsy, everything else is truthy. -/
def Json.truthy : Json → Bool
  | .null => false
  | .bool b => b
  | .num n => n != 0
  | .str s => s != ""
  | .arr es => !es.isEmpty
  | .obj fs => !fs.isEmpty

/-- Python d.get(k): on a dict, the value or None when the key is absent;
on any other value an AttributeError is raised. -/
def Json.getAttr : Json → String → Except String Json
  | .obj fs, k =>
    match fs.lookup k with
    | some v => .ok v
    | none => .ok .null
  | _, _ => .error "AttributeError"

/-- Python d[k]: on a dict, the value, or a KeyError when the key is absent;
indexing a non-dict with a string key raises a TypeError. -/
def Json.index : Json → String → Except String Json
  | .obj fs, k =>
    match fs.lookup k with
    | some v => .ok v
    | none => .error "KeyError"
  | _, _ => .error "TypeError"

/-- One document of the leetcode_rank collection.  Every write path of the
system stores a rank and a server-assigned timestamp; only the manual
trigger adds fetch_time, and nothing ever writes total_solved.  The rank is
kept as a Json value because the source stores the extracted ranking field
without validating its type. -/
structure Doc where
  rank : Json
  timestamp : Nat
  fetch_time : Option String := none
  total_solved : Option Json := none

/-- Branching logic shared verbatim by fetch_leetcode_rank and trigger_fetch
on the parsed body: ok (some r) when data.get of the data key is truthy and
matchedUser is truthy, with r the extracted profile ranking; ok none for the
failed-fetch branch; error for an exception raised while evaluating. -/
def extractOutcome (data : Json) : Except String (Option Json) := do
  let dval ← data.getAttr "data"
  if dval.truthy then
    let dfield ← data.index "data"
    let mu ← dfield.index "matchedUser"
    if mu.truthy then
      let profile ← mu.index "profile"
      let r ← profile.index "ranking"
      pure (some r)
    else
      pure none
  else
    pure none

/-- Outcome of requests.post plus response.json plus the shared branch: the
body argument is the result of parsing the HTTP response, where error also
covers a transport failure or malformed JSON. -/
def fetchOutcome (body : Except String Json) : Except String (Option Json) :=
  body >>= extractOutcome

/-- The scheduled job.  It has no try block: an exception from the transport,
from JSON parsing or from the key lookups propagates out (Except.error);
the failed-fetch branch only prints and returns with the store unchanged;
on success one document with rank and timestamp is added. -/
def fetch_leetcode_rank (body : Except String Json) (ts : Nat)
    (store : List Doc) : Except String (List Doc) :=
  match fetchOutcome body with
  | .error e => .error e
  | .ok (some r) => .ok (store ++ [{ rank := r, timestamp := ts }])
  | .ok none => .ok store

/-- Response of the fetch-now route: ok is the HTTP 200 body with
success true and current_rank, noUser the HTTP 400 body with success false
and the upstream response echoed, exn the HTTP 500 body for a caught
exception. -/
inductive FetchNowResp where
  | ok (message : String) (current_rank : Json)
  | noUser (message : String) (response : Json)
  | exn (message : String)

/-- HTTP status code of a fetch-now response. -/
def fetchNowStatus : FetchNowResp → Nat
  | .ok _ _ => 200
  | .noUser _ _ => 400
  | .exn _ => 500

/-- Success flag of a fetch-now response body. -/
def fetchNowSuccess : FetchNowResp → Bool
  | .ok _ _ => true
  | .noUser _ _ => false
  | .exn _ => false

/-- The manual trigger route.  The whole handler body is inside try, so any
raised exception becomes the 500 response; on success one document with
rank, timestamp and fetch_time is written; on the failed-fetch branch a 400
is returned and nothing is written. -/
def trigger_fetch (body : Except String Json) (ts : Nat) (fetchTime : String)
    (store : List Doc) : FetchNowResp × List Doc :=
  match body with
  | .error e => (.exn e, store)
  | .ok data =>
    match extractOutcome data with
    | .error e => (.exn e, store)
    | .ok (some r) =>
        (.ok "Rank fetched and stored successfully" r,
         store ++ [{ rank := r, timestamp := ts, fetch_time := some fetchTime }])
    | .ok none => (.noUser "Failed to fetch LeetCode data" data, store)

/-- Timestamp order on documents, the order_by key of both read routes. -/
def tsLe (a b : Doc) : Prop := a.timestamp ≤ b.timestamp

instance : DecidableRel tsLe := fun a b => Nat.decLe a.timestamp b.timestamp

instance : IsTotal Doc tsLe := ⟨fun a b => Nat.le_total a.timestamp b.timestamp⟩

instance : IsTrans Doc tsLe := ⟨fun _ _ _ h h' => Nat.le_trans h h'⟩

/-- Reverse timestamp order, for the descending query of the rank route. -/
def tsGe (a b : Doc) : Prop := b.timestamp ≤ a.timestamp

instance : DecidableRel tsGe := fun a b => Nat.decLe b.timestamp a.timestamp

instance : IsTotal Doc tsGe := ⟨fun a b => Nat.le_total b.timestamp a.timestamp⟩

instance : IsTrans Doc tsGe := ⟨fun _ _ _ h h' => Nat.le_trans h' h⟩

/-- Firestore query ordered by timestamp ascending. -/
def sortTsAsc (store : List Doc) : List Doc := List.insertionSort tsLe store

/-- Firestore query ordered by timestamp descending. -/
def sortTsDesc (store : List Doc) : List Doc := List.insertionSort tsGe store

/-- One element of the data list of the rank route: exactly the rank and
timestamp fields are projected. -/
structure RankEntry where
  rank : Json
  timestamp : Nat

/-- Response of the rank route: ok is an HTTP 200 body with a message and
the data list, err the HTTP 500 body with error and details fields. -/
inductive RankResp where
  | ok (message : String) (data : List RankEntry)
  | err (error : String) (details : String)

/-- HTTP status code of a rank response. -/
def rankStatus : RankResp → Nat
  | .ok _ _ => 200
  | .err _ _ => 500

/-- The rank route.  The read argument is the streamed query result, error
when the store read raises.  The query is ordered by timestamp descending
and limited to 10; each document is projected to rank and timestamp; an
empty result still answers 200 with a different message. -/
def get_rank (read : Except String (List Doc)) : RankResp :=
  match read with
  | .error e => .err "Failed to retrieve rank data" e
  | .ok store =>
    let docs := (sortTsDesc store).take 10
    let data := docs.map fun d => RankEntry.mk d.rank d.timestamp
    if data.isEmpty then
      .ok "No rank data available yet" data
    else
      .ok "Rank data retrieved successfully" data

/-- One element of the data list of the history route: rank, total_solved
via dict.get, timestamp, fetch_time via dict.get. -/
structure HistEntry where
  rank : Json
  total_solved : Option Json
  timestamp : Nat
  fetch_time : Option String

/-- The analytics object of the history route. -/
structure Analytics where
  total_records : Nat
  best_rank : Option Json
  current_rank : Option Json
  rank_change : Json
  first_recorded : Option Nat
  last_recorded : Option Nat

/-- Response of the history route: ok is the HTTP 200 body with success
true, data and analytics; err the HTTP 500 body with success false. -/
inductive HistResp where
  | ok (data : List HistEntry) (analytics : Analytics)
  | err (message : String)

/-- HTTP status code of a history response. -/
def histStatus : HistResp → Nat
  | .ok _ _ => 200
  | .err _ => 500

/-- Python comparison used by min: defined between two numbers and between
two strings, a TypeError otherwise. -/
def pyLt : Json → Json → Except String Bool
  | .num a, .num b => .ok (decide (a < b))
  | .str a, .str b => .ok (decide (a < b))
  | _, _ => .error "TypeError: comparison not supported"

/-- Python min over a list: raises on an empty sequence, otherwise folds
keeping the earliest smallest element. -/
def pyMin : List Json → Except String Json
  | [] => .error "ValueError: min arg is an empty sequence"
  | x :: xs =>
    xs.foldlM (fun m y => do
      let lt ← pyLt y m
      pure (if lt then y else m)) x

/-- Python subtraction: defined between two numbers, a TypeError otherwise. -/
def pySub : Json → Json → Except String Json
  | .num a, .num b => .ok (.num (a - b))
  | _, _ => .error "TypeError: subtraction not supported"

/-- The analytics dict of the history route, evaluated in source order over
the projected data and the collected rank values; any raised exception
escapes to the handler's except clause. -/
def computeAnalytics (data : List HistEntry) (rank_values : List Json) :
    Except String Analytics := do
  let best ← match rank_values with
    | [] => pure (none : Option Json)
    | x :: xs => do pure (some (← pyMin (x :: xs)))
  let change ← match rank_values with
    | r0 :: r1 :: rest => pySub ((r1 :: rest).getLast (by simp)) r0
    | _ => pure (Json.num 0)
  pure {
    total_records := data.length
    best_rank := best
    current_rank := rank_values.getLast?
    rank_change := change
    first_recorded := (data.head?).map HistEntry.timestamp
    last_recorded := (data.getLast?).map HistEntry.timestamp
  }

/-- The history route.  The read argument is the streamed query result,
ordered by timestamp ascending; each document is projected to rank,
total_solved, timestamp and fetch_time; any exception, from the read or
from the analytics, becomes the 500 response. -/
def get_rank_history (read : Except String (List Doc)) : HistResp :=
  match read with
  | .error e => .err e
  | .ok store =>
    let docs := sortTsAsc store
    let data := docs.map fun d =>
      HistEntry.mk d.rank d.total_solved d.timestamp d.fetch_time
    let rank_values := docs.map Doc.rank
    match computeAnalytics data rank_values with
    | .error e => .err e
    | .ok a => .ok data a

/-- One request to the rank route as a state transformer: the handler only
streams a query, so the store is returned unchanged. -/
def get_rank_run (store : List Doc) : RankResp × List Doc :=
  (get_rank (.ok store), store)

/-- One request to the history route as a state transformer: the handler
only streams a query, so the store is returned unchanged. -/
def get_rank_history_run (store : List Doc) : HistResp × List Doc :=
  (get_rank_history (.ok store), store)


/-- Value of the best_rank analytics field over purely numeric ranks. -/
def bestOf : List Int → Option Json
  | [] => none
  | x :: xs => some (Json.num (xs.foldl min x))

/-- Value of the rank_change analytics delta over purely numeric ranks. -/
def changeOf : List Int → Int
  | x :: y :: tl => (y :: tl).getLast (List.cons_ne_nil y tl) - x
  | _ => 0

/-- Upstream body of Scenario 1: a matched user with ranking 1500. -/
def scenario1Body : Json :=
  Json.obj [("data", Json.obj [("matchedUser", Json.obj
    [("username", Json.str "Rawan-Khalifa"),
     ("profile", Json.obj [("ranking", Json.num 1500)])])])]

/-- Upstream body of Scenario 2: matchedUser is null. -/
def scenario2Body : Json :=
  Json.obj [("data", Json.obj [("matchedUser", Json.null)])]

/-- Upstream body with a truthy matched user that lacks the profile key. -/
def noProfileBody : Json :=
  Json.obj [("data", Json.obj [("matchedUser", Json.obj
    [("username", Json.str "Rawan-Khalifa")])])]

/-- Store of Scenario 3: ranks 1800, 1700, 1600 at increasing timestamps. -/
def scenario3Store : List Doc :=
  [{ rank := Json.num 1800, timestamp := 1 },
   { rank := Json.num 1700, timestamp := 2 },
   { rank := Json.num 1600, timestamp := 3 }]

end LeetcodeRank

namespace LeetcodeRank

/-- Sorting for the history query permutes the store. -/
theorem sortTsAsc_perm (store : List Doc) : List.Perm (sortTsAsc store) store :=
  List.perm_insertionSort tsLe store

/-- Sorting for the history query yields ascending timestamps. -/
theorem sortTsAsc_sorted (store : List Doc) : List.Sorted tsLe (sortTsAsc store) :=
  List.sorted_insertionSort tsLe store

/-- Sorting for the rank query permutes the store. -/
theorem sortTsDesc_perm (store : List Doc) : List.Perm (sortTsDesc store) store :=
  List.perm_insertionSort tsGe store

/-- Sorting for the rank query yields descending timestamps. -/
theorem sortTsDesc_sorted (store : List Doc) : List.Sorted tsGe (sortTsDesc store) :=
  List.sorted_insertionSort tsGe store

/-- In a list sorted by ascending timestamp, the last element has the
largest timestamp. -/
theorem sorted_tsLe_getLast : ∀ (l : List Doc), List.Sorted tsLe l →
    ∀ (hne : l ≠ []) (e : Doc), e ∈ l → e.timestamp ≤ (l.getLast hne).timestamp
  | [], _, hne, _, _ => absurd rfl hne
  | [a], _, _, e, he => by
      rcases List.mem_singleton.mp he with rfl
      exact le_refl _
  | a :: b :: l, h, _, e, he => by
      rw [List.getLast_cons (List.cons_ne_nil b l)]
      rcases List.mem_cons.mp he with rfl | he'
      · exact (List.pairwise_cons.mp h).1 _
          (List.getLast_mem (List.cons_ne_nil b l))
      · exact sorted_tsLe_getLast (b :: l) (List.pairwise_cons.mp h).2
          (List.cons_ne_nil b l) e he'

/-- Folding min over a list stays below the initial value. -/
theorem foldl_min_le_init (ys : List Int) : ∀ x : Int, ys.foldl min x ≤ x := by
  induction ys with
  | nil => intro x; simp
  | cons y tl ih =>
      intro x
      rw [List.foldl_cons]
      exact le_trans (ih (min x y)) (min_le_left x y)

/-- Folding min over a list stays below every element. -/
theorem foldl_min_le_mem (ys : List Int) :
    ∀ (x : Int), ∀ z ∈ ys, ys.foldl min x ≤ z := by
  induction ys with
  | nil => intro x z hz; cases hz
  | cons y tl ih =>
      intro x z hz
      rw [List.foldl_cons]
      rcases List.mem_cons.mp hz with rfl | hz'
      · exact le_trans (foldl_min_le_init tl (min x z)) (min_le_right x z)
      · exact ih (min x y) z hz'

/-- Folding min over a list starts at the initial value or lands on an
element. -/
theorem foldl_min_mem (ys : List Int) :
    ∀ x : Int, ys.foldl min x = x ∨ ys.foldl min x ∈ ys := by
  induction ys with
  | nil => intro x; left; rfl
  | cons y tl ih =>
      intro x
      rw [List.foldl_cons]
      rcases ih (min x y) with h | h
      · rcases le_total x y with hxy | hxy
        · left; rw [h, min_eq_left hxy]
        · right
          rw [h, min_eq_right hxy]
          exact List.mem_cons_self y tl
      · right; exact List.mem_cons_of_mem y h

/-- A list whose elements are all numbers is the image of a list of
integers. -/
theorem all_num_exists_map (js : List Json)
    (h : ∀ j ∈ js, ∃ n, j = Json.num n) :
    ∃ l : List Int, js = l.map Json.num := by
  induction js with
  | nil => exact ⟨[], rfl⟩
  | cons j tl ih =>
      obtain ⟨n, hn⟩ := h j (List.mem_cons_self j tl)
      obtain ⟨l, hl⟩ := ih fun a ha => h a (List.mem_cons_of_mem j ha)
      exact ⟨n :: l, by rw [List.map_cons, ← hn, ← hl]⟩

/-- Unfolding equation of pyMin on a nonempty list. -/
theorem pyMin_cons (x : Json) (xs : List Json) :
    pyMin (x :: xs) = xs.foldlM (fun m y => do
      let lt ← pyLt y m
      pure (if lt then y else m)) x := rfl

/-- One step of pyMin on two numbers takes their minimum. -/
theorem pyMin_num_cons (x y : Int) (tl : List Json) :
    pyMin (Json.num x :: Json.num y :: tl) =
      pyMin (Json.num (min x y) :: tl) := by
  rw [pyMin_cons, pyMin_cons, List.foldlM_cons]
  by_cases h : y < x
  · have hb : pyLt (Json.num y) (Json.num x) = Except.ok true := by
      simp [pyLt, h]
    rw [hb]
    have hm : min x y = y := min_eq_right (le_of_lt h)
    rw [hm]; rfl
  · have hb : pyLt (Json.num y) (Json.num x) = Except.ok false := by
      simp [pyLt, h]
    rw [hb]
    have hm : min x y = x := min_eq_left (not_lt.mp h)
    rw [hm]; rfl

/-- On a nonempty list of numbers pyMin computes the fold of min. -/
theorem pyMin_map_num (ys : List Int) : ∀ x : Int,
    pyMin (Json.num x :: ys.map Json.num) =
      Except.ok (Json.num (ys.foldl min x)) := by
  induction ys with
  | nil => intro x; rfl
  | cons y tl ih =>
      intro x
      rw [List.map_cons, pyMin_num_cons, ih, List.foldl_cons]

end LeetcodeRank

namespace LeetcodeRank

/-- Auxiliary: getLast of a nonempty list of numbers built by map. -/
theorem getLast_num_cons (y : Int) (tl : List Int)
    (h1 : Json.num y :: tl.map Json.num ≠ []) :
    (Json.num y :: tl.map Json.num).getLast h1 =
      Json.num ((y :: tl).getLast (List.cons_ne_nil y tl)) := by
  have hmap := List.getLast?_map Json.num (y :: tl)
  rw [List.map_cons] at hmap
  rw [List.getLast?_eq_getLast _ h1,
    List.getLast?_eq_getLast _ (List.cons_ne_nil y tl)] at hmap
  simpa using hmap

/-- Auxiliary: getLast? of a two-or-more list of numbers built by map. -/
theorem getLast?_num_cons2 (x y : Int) (tl : List Int) :
    (Json.num x :: Json.num y :: tl.map Json.num).getLast? =
      Option.map Json.num ((x :: y :: tl).getLast?) := by
  rw [← List.map_cons, ← List.map_cons, List.getLast?_map]

/-- Evaluation of the analytics dict on a single record. -/
theorem computeAnalytics_one (data : List HistEntry) (a : Json) :
    computeAnalytics data [a] = Except.ok
      { total_records := data.length
        best_rank := some a
        current_rank := some a
        rank_change := Json.num 0
        first_recorded := (data.head?).map HistEntry.timestamp
        last_recorded := (data.getLast?).map HistEntry.timestamp } := rfl

/-- Evaluation of the analytics dict on two or more records, given the
values of min and of the subtraction. -/
theorem computeAnalytics_two (data : List HistEntry) (a b : Json)
    (rest : List Json) (m : Json)
    (hmin : pyMin (a :: b :: rest) = Except.ok m) (c : Json)
    (hsub : pySub ((b :: rest).getLast (List.cons_ne_nil b rest)) a =
      Except.ok c) :
    computeAnalytics data (a :: b :: rest) = Except.ok
      { total_records := data.length
        best_rank := some m
        current_rank := (a :: b :: rest).getLast?
        rank_change := c
        first_recorded := (data.head?).map HistEntry.timestamp
        last_recorded := (data.getLast?).map HistEntry.timestamp } := by
  have h1 : computeAnalytics data (a :: b :: rest) =
      Bind.bind (pyMin (a :: b :: rest)) (fun m0 =>
        Bind.bind (pure (some m0)) (fun best =>
          Bind.bind (pySub ((b :: rest).getLast (List.cons_ne_nil b rest)) a)
            (fun change => pure (Analytics.mk data.length best
              ((a :: b :: rest).getLast?) change
              ((data.head?).map HistEntry.timestamp)
              ((data.getLast?).map HistEntry.timestamp))))) := rfl
  rw [h1, hmin, hsub]
  rfl

/-- Evaluation of the analytics dict when every rank value is a number. -/
theorem computeAnalytics_map_num (data : List HistEntry) : ∀ l : List Int,
    computeAnalytics data (l.map Json.num) = Except.ok
      { total_records := data.length
        best_rank := bestOf l
        current_rank := Option.map Json.num l.getLast?
        rank_change := Json.num (changeOf l)
        first_recorded := (data.head?).map HistEntry.timestamp
        last_recorded := (data.getLast?).map HistEntry.timestamp }
  | [] => rfl
  | [x] => by
      rw [List.map_cons, List.map_nil, computeAnalytics_one]
      rfl
  | x :: y :: tl => by
      have hmin := pyMin_map_num (y :: tl) x
      rw [List.map_cons] at hmin
      have hsub : pySub ((Json.num y :: tl.map Json.num).getLast
          (List.cons_ne_nil (Json.num y) (tl.map Json.num))) (Json.num x) =
          Except.ok (Json.num ((y :: tl).getLast (List.cons_ne_nil y tl) - x)) := by
        rw [getLast_num_cons]
        rfl
      rw [List.map_cons, List.map_cons,
        computeAnalytics_two data _ _ _ _ hmin _ hsub, getLast?_num_cons2]
      rfl

end LeetcodeRank


namespace LeetcodeRank

/-- Evaluation of the history route on a store whose ranks are numeric. -/
theorem get_rank_history_eval (store : List Doc) (l : List Int)
    (hl : (sortTsAsc store).map Doc.rank = l.map Json.num) :
    get_rank_history (Except.ok store) = HistResp.ok
      ((sortTsAsc store).map fun d =>
        HistEntry.mk d.rank d.total_solved d.timestamp d.fetch_time)
      { total_records := ((sortTsAsc store).map fun d =>
          HistEntry.mk d.rank d.total_solved d.timestamp d.fetch_time).length
        best_rank := bestOf l
        current_rank := Option.map Json.num l.getLast?
        rank_change := Json.num (changeOf l)
        first_recorded := Option.map HistEntry.timestamp
          (((sortTsAsc store).map fun d =>
            HistEntry.mk d.rank d.total_solved d.timestamp d.fetch_time).head?)
        last_recorded := Option.map HistEntry.timestamp
          (((sortTsAsc store).map fun d =>
            HistEntry.mk d.rank d.total_solved d.timestamp d.fetch_time).getLast?) } := by
  simp only [get_rank_history]
  rw [hl, computeAnalytics_map_num]

/-- C1: for every store state whose ranks are numeric, the history route
succeeds and its analytics object satisfies: total_records is the number of
observations; best_rank is the minimum of the ranks, none when the store is
empty; current_rank is the rank of a newest observation, none when empty;
rank_change is the last rank minus the first rank in ascending timestamp
order when at least two observations exist, else 0. -/
theorem history_analytics_spec (store : List Doc)
    (hnum : ∀ d ∈ store, ∃ n, d.rank = Json.num n) :
    ∃ data a, get_rank_history (Except.ok store) = HistResp.ok data a ∧
      a.total_records = store.length ∧
      (store = [] → a.best_rank = none ∧ a.current_rank = none ∧
        a.rank_change = Json.num 0) ∧
      (store ≠ [] → ∃ b, a.best_rank = some (Json.num b) ∧
        Json.num b ∈ store.map Doc.rank ∧
        ∀ d ∈ store, ∀ k, d.rank = Json.num k → b ≤ k) ∧
      (store ≠ [] → ∃ d, d ∈ store ∧ a.current_rank = some d.rank ∧
        ∀ e ∈ store, e.timestamp ≤ d.timestamp) ∧
      (store.length ≤ 1 → a.rank_change = Json.num 0) ∧
      (∀ df dl nf nl, (sortTsAsc store).head? = some df →
        (sortTsAsc store).getLast? = some dl →
        df.rank = Json.num nf → dl.rank = Json.num nl →
        2 ≤ store.length → a.rank_change = Json.num (nl - nf)) := by
  have hperm := sortTsAsc_perm store
  have hsorted := sortTsAsc_sorted store
  have hnum' : ∀ j ∈ (sortTsAsc store).map Doc.rank, ∃ n, j = Json.num n := by
    intro j hj
    rcases List.mem_map.mp hj with ⟨d, hd, rfl⟩
    exact hnum d (hperm.mem_iff.mp hd)
  obtain ⟨l, hl⟩ := all_num_exists_map _ hnum'
  have hlen : l.length = store.length := by
    have h := congrArg List.length hl
    rw [List.length_map, List.length_map, hperm.length_eq] at h
    exact h.symm
  have hSne : store ≠ [] → sortTsAsc store ≠ [] := by
    intro hne hS
    have h := hperm.length_eq
    rw [hS] at h
    exact hne (List.length_eq_zero.mp h.symm)
  refine ⟨_, _, get_rank_history_eval store l hl, ?_, ?_, ?_, ?_, ?_, ?_⟩
  · rw [List.length_map, hperm.length_eq]
  · intro h
    subst h
    have hl0 : l = [] := by
      have h1 : l.map Json.num = [] := hl.symm
      simpa using h1
    subst hl0
    exact ⟨rfl, rfl, rfl⟩
  · intro hne
    have hlne : l ≠ [] := by
      intro h0
      rw [h0] at hlen
      exact hne (List.length_eq_zero.mp hlen.symm)
    cases l with
    | nil => exact absurd rfl hlne
    | cons x xs =>
        refine ⟨xs.foldl min x, rfl, ?_, ?_⟩
        · have hmem : xs.foldl min x ∈ x :: xs := by
            rcases foldl_min_mem xs x with h | h
            · rw [h]; exact List.mem_cons_self x xs
            · exact List.mem_cons_of_mem x h
          have hmem2 : Json.num (xs.foldl min x) ∈ (x :: xs).map Json.num :=
            List.mem_map_of_mem Json.num hmem
          rw [← hl] at hmem2
          exact ((hperm.map Doc.rank).mem_iff).mp hmem2
        · intro d hd k hk
          have h1 : d.rank ∈ store.map Doc.rank := List.mem_map_of_mem Doc.rank hd
          have h2 : d.rank ∈ (x :: xs).map Json.num := by
            rw [← hl]
            exact ((hperm.map Doc.rank).mem_iff).mpr h1
          rcases List.mem_map.mp h2 with ⟨z, hz, hzz⟩
          have hzk : z = k := Json.num.inj (hzz.trans hk)
          subst hzk
          rcases List.mem_cons.mp hz with rfl | hz'
          · exact foldl_min_le_init xs z
          · exact foldl_min_le_mem xs x z hz'
  · intro hne
    have hS := hSne hne
    refine ⟨(sortTsAsc store).getLast hS,
      hperm.mem_iff.mp (List.getLast_mem hS), ?_, ?_⟩
    · have h1 : ((sortTsAsc store).map Doc.rank).getLast? =
          some ((sortTsAsc store).getLast hS).rank := by
        rw [List.getLast?_map, List.getLast?_eq_getLast _ hS]
        rfl
      rw [hl, List.getLast?_map] at h1
      exact h1
    · intro e he
      exact sorted_tsLe_getLast (sortTsAsc store) hsorted hS e
        (hperm.mem_iff.mpr he)
  · intro hle
    have hle' : l.length ≤ 1 := by rw [hlen]; exact hle
    cases l with
    | nil => rfl
    | cons x xs =>
        cases xs with
        | nil => rfl
        | cons y tl => simp at hle'
  · intro df dl nf nl hhead hlast hdf hdl h2
    have h2' : 2 ≤ l.length := by rw [hlen]; exact h2
    cases l with
    | nil => simp at h2'
    | cons x xs =>
        cases xs with
        | nil => simp at h2'
        | cons y tl =>
            have hx : nf = x := by
              have hh1 : ((sortTsAsc store).map Doc.rank).head? =
                  some df.rank := by
                rw [List.head?_map, hhead]
                rfl
              rw [hl] at hh1
              have hh2 : some (Json.num x) = some df.rank := hh1
              exact (Json.num.inj ((Option.some.inj hh2).trans hdf)).symm
            have hy : nl = (y :: tl).getLast (List.cons_ne_nil y tl) := by
              have hg1 : ((sortTsAsc store).map Doc.rank).getLast? =
                  some dl.rank := by
                rw [List.getLast?_map, hlast]
                rfl
              rw [hl] at hg1
              have hg2 : ((x :: y :: tl).map Json.num).getLast? =
                  some (Json.num ((x :: y :: tl).getLast
                    (List.cons_ne_nil x (y :: tl)))) := by
                rw [List.getLast?_map,
                  List.getLast?_eq_getLast _ (List.cons_ne_nil x (y :: tl))]
                rfl
              have hg3 : dl.rank = Json.num ((x :: y :: tl).getLast
                  (List.cons_ne_nil x (y :: tl))) := by
                rw [hg1] at hg2
                exact Option.some.inj hg2
              have hgc : (x :: y :: tl).getLast
                  (List.cons_ne_nil x (y :: tl)) =
                  (y :: tl).getLast (List.cons_ne_nil y tl) :=
                List.getLast_cons (List.cons_ne_nil y tl)
              rw [hgc] at hg3
              exact Json.num.inj (hdl.symm.trans hg3)
            show Json.num (changeOf (x :: y :: tl)) = Json.num (nl - nf)
            rw [hx, hy]
            rfl

end LeetcodeRank

namespace LeetcodeRank

/-- Reduction of bind on a successful Except value. -/
theorem exceptBind_ok {α β : Type} (a : α) (f : α → Except String β) :
    Bind.bind (Except.ok a) f = f a := rfl

/-- C1 witness: the analytics characterization applied to the Scenario 3
store of ranks 1800, 1700, 1600 at increasing timestamps. -/
theorem history_analytics_spec_witness :
    (∀ d ∈ scenario3Store, ∃ n, d.rank = Json.num n) ∧
    (∃ data a, get_rank_history (Except.ok scenario3Store) = HistResp.ok data a ∧
      a.total_records = scenario3Store.length ∧
      (scenario3Store = [] → a.best_rank = none ∧ a.current_rank = none ∧
        a.rank_change = Json.num 0) ∧
      (scenario3Store ≠ [] → ∃ b, a.best_rank = some (Json.num b) ∧
        Json.num b ∈ scenario3Store.map Doc.rank ∧
        ∀ d ∈ scenario3Store, ∀ k, d.rank = Json.num k → b ≤ k) ∧
      (scenario3Store ≠ [] → ∃ d, d ∈ scenario3Store ∧
        a.current_rank = some d.rank ∧
        ∀ e ∈ scenario3Store, e.timestamp ≤ d.timestamp) ∧
      (scenario3Store.length ≤ 1 → a.rank_change = Json.num 0) ∧
      (∀ df dl nf nl, (sortTsAsc scenario3Store).head? = some df →
        (sortTsAsc scenario3Store).getLast? = some dl →
        df.rank = Json.num nf → dl.rank = Json.num nl →
        2 ≤ scenario3Store.length → a.rank_change = Json.num (nl - nf))) := by
  have hnum : ∀ d ∈ scenario3Store, ∃ n, d.rank = Json.num n := by
    intro d hd
    simp only [scenario3Store, List.mem_cons, List.mem_singleton] at hd
    rcases hd with rfl | rfl | rfl | h
    · exact ⟨1800, rfl⟩
    · exact ⟨1700, rfl⟩
    · exact ⟨1600, rfl⟩
    · cases h
  exact ⟨hnum, history_analytics_spec scenario3Store hnum⟩

/-- C3: the rank route on a readable store answers 200 with at most 10
entries, ordered by descending timestamp, each entry being exactly the rank
and timestamp projection of some stored document. -/
theorem get_rank_spec (store : List Doc) :
    ∃ msg data, get_rank (Except.ok store) = RankResp.ok msg data ∧
      rankStatus (get_rank (Except.ok store)) = 200 ∧
      data.length ≤ 10 ∧
      data.Pairwise (fun a b => b.timestamp ≤ a.timestamp) ∧
      ∀ e ∈ data, ∃ d, d ∈ store ∧ e = RankEntry.mk d.rank d.timestamp := by
  have hperm := sortTsDesc_perm store
  have hsorted := sortTsDesc_sorted store
  have hpair : ((sortTsDesc store).take 10).Pairwise tsGe :=
    List.Pairwise.sublist (List.take_sublist 10 (sortTsDesc store)) hsorted
  have hlen : (((sortTsDesc store).take 10).map fun d =>
      RankEntry.mk d.rank d.timestamp).length ≤ 10 := by
    rw [List.length_map, List.length_take]
    exact min_le_left _ _
  have hpair2 : (((sortTsDesc store).take 10).map fun d =>
      RankEntry.mk d.rank d.timestamp).Pairwise
        (fun a b => b.timestamp ≤ a.timestamp) :=
    List.pairwise_map.mpr (hpair.imp fun h => h)
  have hmem : ∀ e ∈ (((sortTsDesc store).take 10).map fun d =>
      RankEntry.mk d.rank d.timestamp), ∃ d, d ∈ store ∧
        e = RankEntry.mk d.rank d.timestamp := by
    intro e he
    rcases List.mem_map.mp he with ⟨d, hd, hde⟩
    exact ⟨d, hperm.mem_iff.mp (List.take_subset 10 _ hd), hde.symm⟩
  by_cases hE : (((sortTsDesc store).take 10).map fun d =>
      RankEntry.mk d.rank d.timestamp).isEmpty
  · have hrun : get_rank (Except.ok store) =
        RankResp.ok "No rank data available yet"
          (((sortTsDesc store).take 10).map fun d =>
            RankEntry.mk d.rank d.timestamp) := by
      simp only [get_rank, hE, if_true]
    exact ⟨_, _, hrun, by rw [hrun]; rfl, hlen, hpair2, hmem⟩
  · have hrun : get_rank (Except.ok store) =
        RankResp.ok "Rank data retrieved successfully"
          (((sortTsDesc store).take 10).map fun d =>
            RankEntry.mk d.rank d.timestamp) := by
      simp only [get_rank, hE, if_false]
      rfl
    exact ⟨_, _, hrun, by rw [hrun]; rfl, hlen, hpair2, hmem⟩

/-- C7: on an empty store both read routes answer 200, the rank route with
an empty data list and the history route with null best_rank and zero
rank_change, while a failing store read yields 500 on both routes. -/
theorem empty_store_reads_spec :
    get_rank (Except.ok []) = RankResp.ok "No rank data available yet" [] ∧
    rankStatus (get_rank (Except.ok [])) = 200 ∧
    (∃ a, get_rank_history (Except.ok []) = HistResp.ok [] a ∧
      a.best_rank = none ∧ a.rank_change = Json.num 0 ∧
      histStatus (get_rank_history (Except.ok [])) = 200) ∧
    (∀ e, rankStatus (get_rank (Except.error e)) = 500 ∧
      histStatus (get_rank_history (Except.error e)) = 500) :=
  ⟨rfl, rfl, ⟨_, rfl, rfl, rfl, rfl⟩, fun _ => ⟨rfl, rfl⟩⟩

/-- C9: repeated reads of the two GET routes with no intervening writes
return identical responses; the handlers return the store unchanged and
their responses are functions of the store contents alone. -/
theorem get_routes_idempotent (store : List Doc) :
    (get_rank_run ((get_rank_run store).2)).1 = (get_rank_run store).1 ∧
    (get_rank_history_run ((get_rank_history_run store).2)).1 =
      (get_rank_history_run store).1 ∧
    (get_rank_run ((get_rank_history_run store).2)).1 =
      (get_rank_run store).1 ∧
    (get_rank_history_run ((get_rank_run store).2)).1 =
      (get_rank_history_run store).1 :=
  ⟨rfl, rfl, rfl, rfl⟩

/-- C2: a successful fetch, scheduled or manual, appends exactly one new
document, whose rank equals the value extracted from the matched user
profile ranking of the upstream response. -/
theorem fetch_success_appends (body : Except String Json) (ts : Nat)
    (fetchTime : String) (store : List Doc) (r : Json)
    (h : fetchOutcome body = Except.ok (some r)) :
    fetch_leetcode_rank body ts store =
      Except.ok (store ++ [{ rank := r, timestamp := ts }]) ∧
    (trigger_fetch body ts fetchTime store).2 =
      store ++ [{ rank := r, timestamp := ts, fetch_time := some fetchTime }] := by
  constructor
  · simp only [fetch_leetcode_rank, h]
  · cases body with
    | error e => exact Except.noConfusion h
    | ok data =>
        have hex : extractOutcome data = Except.ok (some r) := h
        simp only [trigger_fetch, hex]

/-- C2 witness: the Scenario 1 body carries ranking 1500 and both fetch
paths append one document with that rank. -/
theorem fetch_success_appends_witness :
    fetchOutcome (Except.ok scenario1Body) = Except.ok (some (Json.num 1500)) ∧
    fetch_leetcode_rank (Except.ok scenario1Body) 7 [] =
      Except.ok [{ rank := Json.num 1500, timestamp := 7 }] ∧
    (trigger_fetch (Except.ok scenario1Body) 7 "2025-01-01T00:00:00" []).2 =
      [{ rank := Json.num 1500, timestamp := 7,
         fetch_time := some "2025-01-01T00:00:00" }] := by
  have h : fetchOutcome (Except.ok scenario1Body) =
      Except.ok (some (Json.num 1500)) := rfl
  have hm := fetch_success_appends (Except.ok scenario1Body) 7
    "2025-01-01T00:00:00" [] (Json.num 1500) h
  exact ⟨h, hm.1, hm.2⟩

/-- C8: on fetch success the scheduled path writes a document with exactly
rank and timestamp set, the manual path additionally sets fetch_time, and
neither write path ever sets total_solved. -/
theorem write_fields_spec (body : Except String Json) (ts : Nat)
    (fetchTime : String) (store : List Doc) (r : Json)
    (h : fetchOutcome body = Except.ok (some r)) :
    fetch_leetcode_rank body ts store = Except.ok (store ++
      [{ rank := r, timestamp := ts, fetch_time := none,
         total_solved := none }]) ∧
    (trigger_fetch body ts fetchTime store).2 = store ++
      [{ rank := r, timestamp := ts, fetch_time := some fetchTime,
         total_solved := none }] := by
  constructor
  · simp only [fetch_leetcode_rank, h]
  · cases body with
    | error e => exact Except.noConfusion h
    | ok data =>
        have hex : extractOutcome data = Except.ok (some r) := h
        simp only [trigger_fetch, hex]

/-- C8 witness: field shape of the two write paths on the Scenario 1 body. -/
theorem write_fields_spec_witness :
    fetchOutcome (Except.ok scenario1Body) = Except.ok (some (Json.num 1500)) ∧
    fetch_leetcode_rank (Except.ok scenario1Body) 9 [] =
      Except.ok [{ rank := Json.num 1500, timestamp := 9,
                   fetch_time := none, total_solved := none }] ∧
    (trigger_fetch (Except.ok scenario1Body) 9 "2025-02-02T00:00:00" []).2 =
      [{ rank := Json.num 1500, timestamp := 9,
         fetch_time := some "2025-02-02T00:00:00", total_solved := none }] := by
  have h : fetchOutcome (Except.ok scenario1Body) =
      Except.ok (some (Json.num 1500)) := rfl
  have hm := write_fields_spec (Except.ok scenario1Body) 9
    "2025-02-02T00:00:00" [] (Json.num 1500) h
  exact ⟨h, hm.1, hm.2⟩

/-- C5 counterexample: on a malformed JSON body the scheduled job does not
return normally: the exception propagates out of the job function. -/
theorem scheduled_job_raises_on_bad_json :
    fetch_leetcode_rank (Except.error "Expecting value: line 1 column 1") 0 [] =
      Except.error "Expecting value: line 1 column 1" := rfl

/-- C5 amended: only the missing-matched-user failure is handled inside the
scheduled job, which prints and returns normally leaving the store
unchanged; a transport or JSON failure or a key-lookup failure propagates
out of the job function unhandled, to be swallowed by the scheduler. -/
theorem scheduled_job_failure_spec (body : Except String Json) (ts : Nat)
    (store : List Doc) :
    (∀ e, fetchOutcome body = Except.error e →
      fetch_leetcode_rank body ts store = Except.error e) ∧
    (fetchOutcome body = Except.ok none →
      fetch_leetcode_rank body ts store = Except.ok store) := by
  constructor
  · intro e he
    simp only [fetch_leetcode_rank, he]
  · intro he
    simp only [fetch_leetcode_rank, he]

/-- C5 witness: the Scenario 2 body takes the handled failed-fetch branch,
returning normally with the store unchanged. -/
theorem scheduled_job_failure_spec_witness :
    fetchOutcome (Except.ok scenario2Body) = Except.ok none ∧
    fetch_leetcode_rank (Except.ok scenario2Body) 3 [] = Except.ok [] := by
  have h : fetchOutcome (Except.ok scenario2Body) = Except.ok none := rfl
  exact ⟨h, (scheduled_job_failure_spec (Except.ok scenario2Body) 3 []).2 h⟩

end LeetcodeRank

namespace LeetcodeRank

/-- C6: the store is append-only: every operation leaves the existing
documents in place and only ever adds at the end; when a fetch fails,
including the 400 no-matched-user case of the manual trigger, the store is
left unchanged; the read routes never write. -/
theorem store_append_only_spec (body : Except String Json) (ts : Nat)
    (fetchTime : String) (store : List Doc) :
    (∃ tail, (trigger_fetch body ts fetchTime store).2 = store ++ tail) ∧
    (∀ s, fetch_leetcode_rank body ts store = Except.ok s →
      ∃ tail, s = store ++ tail) ∧
    ((∀ r, fetchOutcome body ≠ Except.ok (some r)) →
      (trigger_fetch body ts fetchTime store).2 = store ∧
      ∀ s, fetch_leetcode_rank body ts store = Except.ok s → s = store) ∧
    (fetchOutcome body = Except.ok none →
      fetchNowStatus (trigger_fetch body ts fetchTime store).1 = 400 ∧
      (trigger_fetch body ts fetchTime store).2 = store) ∧
    (get_rank_run store).2 = store ∧
    (get_rank_history_run store).2 = store := by
  cases body with
  | error e =>
      have hfo : fetchOutcome (Except.error e) = Except.error e := rfl
      have htf : trigger_fetch (Except.error e) ts fetchTime store =
          (FetchNowResp.exn e, store) := rfl
      have hj : fetch_leetcode_rank (Except.error e) ts store =
          Except.error e := by
        simp only [fetch_leetcode_rank, hfo]
      refine ⟨⟨[], by rw [htf]; simp⟩, ?_, ?_, ?_, rfl, rfl⟩
      · intro s hs
        rw [hj] at hs
        exact Except.noConfusion hs
      · intro _
        refine ⟨by rw [htf], ?_⟩
        intro s hs
        rw [hj] at hs
        exact Except.noConfusion hs
      · intro hc
        rw [hfo] at hc
        exact Except.noConfusion hc
  | ok data =>
      have hfo : fetchOutcome (Except.ok data) = extractOutcome data := rfl
      cases hex : extractOutcome data with
      | error e =>
          have htf : trigger_fetch (Except.ok data) ts fetchTime store =
              (FetchNowResp.exn e, store) := by
            simp only [trigger_fetch, hex]
          have hj : fetch_leetcode_rank (Except.ok data) ts store =
              Except.error e := by
            simp only [fetch_leetcode_rank, hfo, hex]
          refine ⟨⟨[], by rw [htf]; simp⟩, ?_, ?_, ?_, rfl, rfl⟩
          · intro s hs
            rw [hj] at hs
            exact Except.noConfusion hs
          · intro _
            refine ⟨by rw [htf], ?_⟩
            intro s hs
            rw [hj] at hs
            exact Except.noConfusion hs
          · intro hc
            rw [hfo, hex] at hc
            exact Except.noConfusion hc
      | ok o =>
          cases o with
          | none =>
              have htf : trigger_fetch (Except.ok data) ts fetchTime store =
                  (FetchNowResp.noUser "Failed to fetch LeetCode data" data,
                   store) := by
                simp only [trigger_fetch, hex]
              have hj : fetch_leetcode_rank (Except.ok data) ts store =
                  Except.ok store := by
                simp only [fetch_leetcode_rank, hfo, hex]
              refine ⟨⟨[], by rw [htf]; simp⟩, ?_, ?_, ?_, rfl, rfl⟩
              · intro s hs
                rw [hj] at hs
                refine ⟨[], ?_⟩
                rw [List.append_nil]
                exact (Except.ok.inj hs).symm
              · intro _
                refine ⟨by rw [htf], ?_⟩
                intro s hs
                rw [hj] at hs
                exact (Except.ok.inj hs).symm
              · intro _
                exact ⟨by rw [htf]; rfl, by rw [htf]⟩
          | some r =>
              have htf : trigger_fetch (Except.ok data) ts fetchTime store =
                  (FetchNowResp.ok "Rank fetched and stored successfully" r,
                   store ++ [{ rank := r, timestamp := ts,
                               fetch_time := some fetchTime }]) := by
                simp only [trigger_fetch, hex]
              have hj : fetch_leetcode_rank (Except.ok data) ts store =
                  Except.ok (store ++ [{ rank := r, timestamp := ts }]) := by
                simp only [fetch_leetcode_rank, hfo, hex]
              refine ⟨⟨_, by rw [htf]⟩, ?_, ?_, ?_, rfl, rfl⟩
              · intro s hs
                rw [hj] at hs
                exact ⟨_, (Except.ok.inj hs).symm⟩
              · intro hcontra
                exact absurd (hfo.trans hex) (hcontra r)
              · intro hc
                rw [hfo, hex] at hc
                exact Option.noConfusion (Except.ok.inj hc)

/-- C6 witness: on the Scenario 2 body the manual trigger answers 400 and
writes nothing. -/
theorem store_append_only_spec_witness :
    fetchOutcome (Except.ok scenario2Body) = Except.ok none ∧
    fetchNowStatus (trigger_fetch (Except.ok scenario2Body) 4 "t" []).1 = 400 ∧
    (trigger_fetch (Except.ok scenario2Body) 4 "t" []).2 = [] := by
  have h : fetchOutcome (Except.ok scenario2Body) = Except.ok none := rfl
  have hm := (store_append_only_spec (Except.ok scenario2Body) 4 "t" []).2.2.2.1 h
  exact ⟨h, hm.1, hm.2⟩

/-- C4: classification of the manual trigger response: 200 with success
true and the fetched rank on a successful fetch, 400 with success false
when the upstream carried no matched user, 500 with success false and the
exception message when an exception was raised. -/
theorem trigger_fetch_status_spec (body : Except String Json) (ts : Nat)
    (fetchTime : String) (store : List Doc) :
    (∀ r, fetchOutcome body = Except.ok (some r) →
      (trigger_fetch body ts fetchTime store).1 =
        FetchNowResp.ok "Rank fetched and stored successfully" r ∧
      fetchNowStatus (trigger_fetch body ts fetchTime store).1 = 200 ∧
      fetchNowSuccess (trigger_fetch body ts fetchTime store).1 = true) ∧
    (fetchOutcome body = Except.ok none →
      fetchNowStatus (trigger_fetch body ts fetchTime store).1 = 400 ∧
      fetchNowSuccess (trigger_fetch body ts fetchTime store).1 = false) ∧
    (∀ e, fetchOutcome body = Except.error e →
      (trigger_fetch body ts fetchTime store).1 = FetchNowResp.exn e ∧
      fetchNowStatus (trigger_fetch body ts fetchTime store).1 = 500 ∧
      fetchNowSuccess (trigger_fetch body ts fetchTime store).1 = false) := by
  cases body with
  | error e =>
      refine ⟨?_, ?_, ?_⟩
      · intro r hr
        exact Except.noConfusion hr
      · intro hr
        exact Except.noConfusion hr
      · intro e' he
        have he' : e = e' := Except.error.inj he
        subst he'
        exact ⟨rfl, rfl, rfl⟩
  | ok data =>
      have hfo : fetchOutcome (Except.ok data) = extractOutcome data := rfl
      cases hex : extractOutcome data with
      | error e =>
          have htf : trigger_fetch (Except.ok data) ts fetchTime store =
              (FetchNowResp.exn e,
               store) := by
            simp only [trigger_fetch, hex]
          refine ⟨?_, ?_, ?_⟩
          · intro r hr
            rw [hfo, hex] at hr
            exact Except.noConfusion hr
          · intro hr
            rw [hfo, hex] at hr
            exact Except.noConfusion hr
          · intro e' he
            rw [hfo, hex] at he
            have he' : e = e' := Except.error.inj he
            subst he'
            exact ⟨by rw [htf], by rw [htf]; rfl, by rw [htf]; rfl⟩
      | ok o =>
          cases o with
          | none =>
              have htf : trigger_fetch (Except.ok data) ts fetchTime store =
                  (FetchNowResp.noUser "Failed to fetch LeetCode data" data,
                   store) := by
                simp only [trigger_fetch, hex]
              refine ⟨?_, ?_, ?_⟩
              · intro r hr
                rw [hfo, hex] at hr
                exact Option.noConfusion (Except.ok.inj hr)
              · intro _
                exact ⟨by rw [htf]; rfl, by rw [htf]; rfl⟩
              · intro e' he
                rw [hfo, hex] at he
                exact Except.noConfusion he
          | some r0 =>
              have htf : trigger_fetch (Except.ok data) ts fetchTime store =
                  (FetchNowResp.ok "Rank fetched and stored successfully" r0,
                   store ++ [{ rank := r0, timestamp := ts,
                               fetch_time := some fetchTime }]) := by
                simp only [trigger_fetch, hex]
              refine ⟨?_, ?_, ?_⟩
              · intro r hr
                rw [hfo, hex] at hr
                have hr0 : r0 = r := Option.some.inj (Except.ok.inj hr)
                subst hr0
                exact ⟨by rw [htf], by rw [htf]; rfl, by rw [htf]; rfl⟩
              · intro hr
                rw [hfo, hex] at hr
                exact Option.noConfusion (Except.ok.inj hr)
              · intro e' he
                rw [hfo, hex] at he
                exact Except.noConfusion he

/-- C4 witness: the Scenario 2 body, matchedUser null, yields the 400
response with success false. -/
theorem trigger_fetch_status_spec_witness :
    fetchOutcome (Except.ok scenario2Body) = Except.ok none ∧
    fetchNowStatus (trigger_fetch (Except.ok scenario2Body) 1 "t" []).1 = 400 ∧
    fetchNowSuccess (trigger_fetch (Except.ok scenario2Body) 1 "t" []).1 =
      false := by
  have h : fetchOutcome (Except.ok scenario2Body) = Except.ok none := rfl
  have hm := (trigger_fetch_status_spec (Except.ok scenario2Body) 1 "t" []).2.1 h
  exact ⟨h, hm.1, hm.2⟩

end LeetcodeRank

namespace LeetcodeRank

/-- Stepwise form of extractOutcome once the first dictionary read is
resolved. -/
theorem extractOutcome_steps (data dval : Json)
    (h1 : data.getAttr "data" = Except.ok dval) :
    extractOutcome data =
      if dval.truthy then
        Bind.bind (data.index "data") (fun dfield =>
          Bind.bind (dfield.index "matchedUser") (fun mu =>
            if mu.truthy then
              Bind.bind (mu.index "profile") (fun profile =>
                Bind.bind (profile.index "ranking") (fun r =>
                  pure (some r)))
            else pure none))
      else pure none := by
  simp only [extractOutcome, h1]
  rfl

/-- C10: over an upstream JSON object, the 400 branch of the manual trigger
is taken exactly when the data key is absent or falsy, or when the truthy
data object carries a matchedUser key whose value is falsy; when the
matchedUser value is truthy but the profile or ranking key is missing, the
raised KeyError is caught and answered as a 500 exception response, not
400. -/
theorem trigger_400_iff (fs : List (String × Json)) (ts : Nat)
    (fetchTime : String) (store : List Doc) :
    (fetchNowStatus
        (trigger_fetch (Except.ok (Json.obj fs)) ts fetchTime store).1 = 400 ↔
      ((∀ v, fs.lookup "data" = some v → v.truthy = false) ∨
       (∃ gs mu, fs.lookup "data" = some (Json.obj gs) ∧
         (Json.obj gs).truthy = true ∧
         gs.lookup "matchedUser" = some mu ∧ mu.truthy = false))) ∧
    (∀ gs mu ms, fs.lookup "data" = some (Json.obj gs) →
      (Json.obj gs).truthy = true →
      gs.lookup "matchedUser" = some mu → mu.truthy = true →
      mu = Json.obj ms →
      (ms.lookup "profile" = none ∨
        ∃ ps, ms.lookup "profile" = some (Json.obj ps) ∧
          ps.lookup "ranking" = none) →
      ∃ e, (trigger_fetch (Except.ok (Json.obj fs)) ts fetchTime store).1 =
        FetchNowResp.exn e) := by
  have hstat : ∀ o, extractOutcome (Json.obj fs) = o →
      (fetchNowStatus
        (trigger_fetch (Except.ok (Json.obj fs)) ts fetchTime store).1 = 400 ↔
        o = Except.ok none) := by
    intro o ho
    cases o with
    | error e =>
        have htf : (trigger_fetch (Except.ok (Json.obj fs)) ts
            fetchTime store).1 = FetchNowResp.exn e := by
          simp only [trigger_fetch, ho]
        rw [htf]
        simp [fetchNowStatus]
    | ok o' =>
        cases o' with
        | none =>
            have htf : (trigger_fetch (Except.ok (Json.obj fs)) ts
                fetchTime store).1 =
                FetchNowResp.noUser "Failed to fetch LeetCode data"
                  (Json.obj fs) := by
              simp only [trigger_fetch, ho]
            rw [htf]
            simp [fetchNowStatus]
        | some r =>
            have htf : (trigger_fetch (Except.ok (Json.obj fs)) ts
                fetchTime store).1 =
                FetchNowResp.ok "Rank fetched and stored successfully" r := by
              simp only [trigger_fetch, ho]
            rw [htf]
            simp [fetchNowStatus]
  constructor
  · refine (hstat (extractOutcome (Json.obj fs)) rfl).trans ?_
    rcases hd : fs.lookup "data" with _ | v
    · have hget : Json.getAttr (Json.obj fs) "data" = Except.ok Json.null := by
        simp only [Json.getAttr, hd]
      have hext : extractOutcome (Json.obj fs) = Except.ok none := by
        rw [extractOutcome_steps _ _ hget]
        rfl
      rw [hext]
      constructor
      · intro _
        left
        intro v hv
        exact Option.noConfusion hv
      · intro _
        rfl
    · have hget : Json.getAttr (Json.obj fs) "data" = Except.ok v := by
        simp only [Json.getAttr, hd]
      have hidx : Json.index (Json.obj fs) "data" = Except.ok v := by
        simp only [Json.index, hd]
      cases htv : v.truthy with
      | false =>
          have hext : extractOutcome (Json.obj fs) = Except.ok none := by
            rw [extractOutcome_steps _ _ hget, htv]
            rfl
          rw [hext]
          constructor
          · intro _
            left
            intro v' hv'
            have hvv : v = v' := Option.some.inj hv'
            subst hvv
            exact htv
          · intro _
            rfl
      | true =>
          have hstep : extractOutcome (Json.obj fs) =
              Bind.bind (v.index "matchedUser") (fun mu =>
                if mu.truthy then
                  Bind.bind (mu.index "profile") (fun profile =>
                    Bind.bind (profile.index "ranking") (fun r =>
                      pure (some r)))
                else pure none) := by
            rw [extractOutcome_steps _ _ hget, htv, hidx]
            rfl
          have hfal_false : ¬ (∀ v', some v = some v' →
              v'.truthy = false) := by
            intro hfal
            exact Bool.noConfusion (htv.symm.trans (hfal v rfl))
          cases v with
          | null => exact Bool.noConfusion htv
          | bool b =>
              have hext : extractOutcome (Json.obj fs) =
                  Except.error "TypeError" := by
                rw [hstep]
                rfl
              rw [hext]
              constructor
              · intro h
                exact Except.noConfusion h
              · rintro (hfal | ⟨gs', mu', hgs', _, _, _⟩)
                · exact absurd hfal hfal_false
                · exact Json.noConfusion (Option.some.inj hgs')
          | num n =>
              have hext : extractOutcome (Json.obj fs) =
                  Except.error "TypeError" := by
                rw [hstep]
                rfl
              rw [hext]
              constructor
              · intro h
                exact Except.noConfusion h
              · rintro (hfal | ⟨gs', mu', hgs', _, _, _⟩)
                · exact absurd hfal hfal_false
                · exact Json.noConfusion (Option.some.inj hgs')
          | str sv =>
              have hext : extractOutcome (Json.obj fs) =
                  Except.error "TypeError" := by
                rw [hstep]
                rfl
              rw [hext]
              constructor
              · intro h
                exact Except.noConfusion h
              · rintro (hfal | ⟨gs', mu', hgs', _, _, _⟩)
                · exact absurd hfal hfal_false
                · exact Json.noConfusion (Option.some.inj hgs')
          | arr es =>
              have hext : extractOutcome (Json.obj fs) =
                  Except.error "TypeError" := by
                rw [hstep]
                rfl
              rw [hext]
              constructor
              · intro h
                exact Except.noConfusion h
              · rintro (hfal | ⟨gs', mu', hgs', _, _, _⟩)
                · exact absurd hfal hfal_false
                · exact Json.noConfusion (Option.some.inj hgs')
          | obj gs =>
              rcases hmu : gs.lookup "matchedUser" with _ | mu
              · have hmuE : Json.index (Json.obj gs) "matchedUser" =
                    Except.error "KeyError" := by
                  simp only [Json.index, hmu]
                have hext : extractOutcome (Json.obj fs) =
                    Except.error "KeyError" := by
                  rw [hstep, hmuE]
                  rfl
                rw [hext]
                constructor
                · intro h
                  exact Except.noConfusion h
                · rintro (hfal | ⟨gs', mu', hgs', _, hmu', _⟩)
                  · exact absurd hfal hfal_false
                  · have h1 : gs = gs' :=
                      Json.obj.inj (Option.some.inj hgs')
                    subst h1
                    exact Option.noConfusion (hmu.symm.trans hmu')
              · have hmuE : Json.index (Json.obj gs) "matchedUser" =
                    Except.ok mu := by
                  simp only [Json.index, hmu]
                cases hmt : mu.truthy with
                | false =>
                    have hext : extractOutcome (Json.obj fs) =
                        Except.ok none := by
                      rw [hstep, hmuE]
                      simp only [exceptBind_ok]
                      rw [hmt]
                      rfl
                    rw [hext]
                    constructor
                    · intro _
                      right
                      exact ⟨gs, mu, rfl, htv, hmu, hmt⟩
                    · intro _
                      rfl
                | true =>
                    have hRHSfalse : ¬ ((∀ v', some (Json.obj gs) = some v' →
                        v'.truthy = false) ∨
                        (∃ gs' mu', some (Json.obj gs) = some (Json.obj gs') ∧
                          (Json.obj gs').truthy = true ∧
                          gs'.lookup "matchedUser" = some mu' ∧
                          mu'.truthy = false)) := by
                      rintro (hfal | ⟨gs', mu', hgs', _, hmu', hmt'⟩)
                      · exact absurd hfal hfal_false
                      · have h1 : gs = gs' :=
                          Json.obj.inj (Option.some.inj hgs')
                        subst h1
                        have h2 : mu = mu' :=
                          Option.some.inj (hmu.symm.trans hmu')
                        subst h2
                        exact Bool.noConfusion (hmt.symm.trans hmt')
                    have hstep2 : extractOutcome (Json.obj fs) =
                        Bind.bind (mu.index "profile") (fun profile =>
                          Bind.bind (profile.index "ranking") (fun r =>
                            pure (some r))) := by
                      rw [hstep, hmuE]
                      simp only [exceptBind_ok]
                      rw [hmt]
                      rfl
                    cases mu with
                    | null => exact Bool.noConfusion hmt
                    | bool b =>
                        have hext : extractOutcome (Json.obj fs) =
                            Except.error "TypeError" := by
                          rw [hstep2]
                          rfl
                        rw [hext]
                        exact ⟨fun h => Except.noConfusion h,
                          fun hc => absurd hc hRHSfalse⟩
                    | num n =>
                        have hext : extractOutcome (Json.obj fs) =
                            Except.error "TypeError" := by
                          rw [hstep2]
                          rfl
                        rw [hext]
                        exact ⟨fun h => Except.noConfusion h,
                          fun hc => absurd hc hRHSfalse⟩
                    | str sv =>
                        have hext : extractOutcome (Json.obj fs) =
                            Except.error "TypeError" := by
                          rw [hstep2]
                          rfl
                        rw [hext]
                        exact ⟨fun h => Except.noConfusion h,
                          fun hc => absurd hc hRHSfalse⟩
                    | arr es =>
                        have hext : extractOutcome (Json.obj fs) =
                            Except.error "TypeError" := by
                          rw [hstep2]
                          rfl
                        rw [hext]
                        exact ⟨fun h => Except.noConfusion h,
                          fun hc => absurd hc hRHSfalse⟩
                    | obj ms =>
                        rcases hp : ms.lookup "profile" with _ | p
                        · have hpE : Json.index (Json.obj ms) "profile" =
                              Except.error "KeyError" := by
                            simp only [Json.index, hp]
                          have hext : extractOutcome (Json.obj fs) =
                              Except.error "KeyError" := by
                            rw [hstep2, hpE]
                            rfl
                          rw [hext]
                          exact ⟨fun h => Except.noConfusion h,
                            fun hc => absurd hc hRHSfalse⟩
                        · have hpE : Json.index (Json.obj ms) "profile" =
                              Except.ok p := by
                            simp only [Json.index, hp]
                          have hstep3 : extractOutcome (Json.obj fs) =
                              Bind.bind (p.index "ranking") (fun r =>
                                pure (some r)) := by
                            rw [hstep2, hpE]
                            simp only [exceptBind_ok]
                          cases p with
                          | null =>
                              rw [show extractOutcome (Json.obj fs) =
                                Except.error "TypeError" from by rw [hstep3]; rfl]
                              exact ⟨fun h => Except.noConfusion h,
                                fun hc => absurd hc hRHSfalse⟩
                          | bool b2 =>
                              rw [show extractOutcome (Json.obj fs) =
                                Except.error "TypeError" from by rw [hstep3]; rfl]
                              exact ⟨fun h => Except.noConfusion h,
                                fun hc => absurd hc hRHSfalse⟩
                          | num n2 =>
                              rw [show extractOutcome (Json.obj fs) =
                                Except.error "TypeError" from by rw [hstep3]; rfl]
                              exact ⟨fun h => Except.noConfusion h,
                                fun hc => absurd hc hRHSfalse⟩
                          | str s2 =>
                              rw [show extractOutcome (Json.obj fs) =
                                Except.error "TypeError" from by rw [hstep3]; rfl]
                              exact ⟨fun h => Except.noConfusion h,
                                fun hc => absurd hc hRHSfalse⟩
                          | arr es2 =>
                              rw [show extractOutcome (Json.obj fs) =
                                Except.error "TypeError" from by rw [hstep3]; rfl]
                              exact ⟨fun h => Except.noConfusion h,
                                fun hc => absurd hc hRHSfalse⟩
                          | obj ps =>
                              rcases hr : ps.lookup "ranking" with _ | r
                              · have hrE : Json.index (Json.obj ps) "ranking" =
                                    Except.error "KeyError" := by
                                  simp only [Json.index, hr]
                                have hext : extractOutcome (Json.obj fs) =
                                    Except.error "KeyError" := by
                                  rw [hstep3, hrE]
                                  rfl
                                rw [hext]
                                exact ⟨fun h => Except.noConfusion h,
                                  fun hc => absurd hc hRHSfalse⟩
                              · have hrE : Json.index (Json.obj ps) "ranking" =
                                    Except.ok r := by
                                  simp only [Json.index, hr]
                                have hext : extractOutcome (Json.obj fs) =
                                    Except.ok (some r) := by
                                  rw [hstep3, hrE]
                                  rfl
                                rw [hext]
                                exact ⟨fun h =>
                                  Option.noConfusion (Except.ok.inj h),
                                  fun hc => absurd hc hRHSfalse⟩
  · intro gs mu ms hd htr hmu hmt hobj hmiss
    subst hobj
    have hget : Json.getAttr (Json.obj fs) "data" =
        Except.ok (Json.obj gs) := by
      simp only [Json.getAttr, hd]
    have hidx : Json.index (Json.obj fs) "data" =
        Except.ok (Json.obj gs) := by
      simp only [Json.index, hd]
    have hmuE : Json.index (Json.obj gs) "matchedUser" =
        Except.ok (Json.obj ms) := by
      simp only [Json.index, hmu]
    have hstep : extractOutcome (Json.obj fs) =
        Bind.bind ((Json.obj gs).index "matchedUser") (fun mu0 =>
          if mu0.truthy then
            Bind.bind (mu0.index "profile") (fun profile =>
              Bind.bind (profile.index "ranking") (fun r =>
                pure (some r)))
          else pure none) := by
      rw [extractOutcome_steps _ _ hget, htr, hidx]
      rfl
    have hstep2 : extractOutcome (Json.obj fs) =
        Bind.bind ((Json.obj ms).index "profile") (fun profile =>
          Bind.bind (profile.index "ranking") (fun r =>
            pure (some r))) := by
      rw [hstep, hmuE]
      simp only [exceptBind_ok]
      rw [hmt]
      rfl
    rcases hmiss with hp | ⟨ps, hp, hr⟩
    · have hpE : Json.index (Json.obj ms) "profile" =
          Except.error "KeyError" := by
        simp only [Json.index, hp]
      have hext : extractOutcome (Json.obj fs) =
          Except.error "KeyError" := by
        rw [hstep2, hpE]
        rfl
      refine ⟨"KeyError", ?_⟩
      simp only [trigger_fetch, hext]
    · have hpE : Json.index (Json.obj ms) "profile" =
          Except.ok (Json.obj ps) := by
        simp only [Json.index, hp]
      have hrE : Json.index (Json.obj ps) "ranking" =
          Except.error "KeyError" := by
        simp only [Json.index, hr]
      have hext : extractOutcome (Json.obj fs) =
          Except.error "KeyError" := by
        rw [hstep2, hpE]
        simp only [exceptBind_ok]
        rw [hrE]
        rfl
      refine ⟨"KeyError", ?_⟩
      simp only [trigger_fetch, hext]

end LeetcodeRank

namespace LeetcodeRank

/-- C10 witness: a body whose truthy matched user lacks the profile key
drives the manual trigger into the 500 exception response. -/
theorem trigger_400_iff_witness :
    List.lookup "data" [("data", Json.obj [("matchedUser",
        Json.obj [("username", Json.str "Rawan-Khalifa")])])] =
      some (Json.obj [("matchedUser",
        Json.obj [("username", Json.str "Rawan-Khalifa")])]) ∧
    ∃ e, (trigger_fetch (Except.ok (Json.obj [("data",
        Json.obj [("matchedUser",
          Json.obj [("username", Json.str "Rawan-Khalifa")])])])) 2 "t" []).1 =
      FetchNowResp.exn e := by
  refine ⟨rfl, ?_⟩
  exact (trigger_400_iff [("data", Json.obj [("matchedUser",
      Json.obj [("username", Json.str "Rawan-Khalifa")])])] 2 "t" []).2
    [("matchedUser", Json.obj [("username", Json.str "Rawan-Khalifa")])]
    (Json.obj [("username", Json.str "Rawan-Khalifa")])
    [("username", Json.str "Rawan-Khalifa")]
    rfl rfl rfl rfl rfl (Or.inl rfl)

end LeetcodeRank
